import Mathlib

set_option linter.unusedVariables false

/-!
Verification of `src/python/pants/engine/internals/defaults.py` — the
BUILD-file defaults merge engine (`BuildFileDefaultsParserState`).

Embedding notes:

* Python `dict`s (insertion ordered, unique keys) are modelled as
  association lists `List (String × β)` together with operations `alGet`,
  `alInsert`, `alUpdate`, `alPop` that mirror `d[k]`, `d[k] = v`,
  `d.update(e)` and `d.pop(k, None)` on dicts with unique keys.
* The target-type registry (`RegisteredTargetTypes`, `Target` field
  introspection, `Field.compute_value`) lives outside this excerpt; the
  module consumes it through a small read-only interface, modelled here by
  `FieldType` / `TargetType` / `RegisteredTargetTypes`: a kind exposes its
  set of valid field aliases (`_get_field_aliases_to_field_types(...)`
  keys), its field types (`class_field_types(union_membership)`, with the
  union membership already absorbed) each carrying `alias`,
  `deprecated_alias` and a total coercion function `compute_value`.
* Raised exceptions become `Except SDError`; the state of the engine after
  a call that raised is the unmodified receiver (`set_defaults` only writes
  `self.defaults` in its final loop, after all validation), captured by
  `set_defaults_observed`.
* `get_frozen_defaults` can hit a `KeyError` on `types[target_alias]` when
  a kind in the working defaults is not registered (and the kind has at
  least one field, otherwise the inner comprehension never evaluates the
  lookup); it is therefore modelled as returning `Option`.
-/

/-- Raw or coerced field default values. The merge engine treats values as
opaque payload; two concrete shapes are enough for every scenario in the
test-suite (strings and tuples of strings, e.g. `tags`). -/
inductive Value where
  | str : String → Value
  | strTup : List String → Value
  deriving DecidableEq

/-- The engine's address: `Address(path, generated_name="__defaults__")`
(defaults.py line 48). Only carried into error messages and
`compute_value`. -/
structure Address where
  path : String
  generatedName : String
  deriving DecidableEq

/-- Registry-side view of one field type: its current alias, optional
deprecated alias, and the per-field coercion function `compute_value`
(modelled total; coercion failures are outside the claims checked here). -/
structure FieldType where
  aliasName : String
  deprecatedAlias : Option String
  computeValue : Value → Address → Value

/-- Registry-side view of one target type (kind): its alias, the field
types returned by `class_field_types(union_membership)`, and the set of
valid field aliases, i.e. the keys of
`_get_field_aliases_to_field_types(class_field_types(...))`. -/
structure TargetType where
  aliasName : String
  fieldTypes : List FieldType
  validFieldAliases : List String

/-- `RegisteredTargetTypes.aliases_to_types`: mapping from target alias to
target type. -/
structure RegisteredTargetTypes where
  aliasesToTypes : List (String × TargetType)

/-- `RegisteredTargetTypes.aliases`: the keys of `aliases_to_types`. -/
def RegisteredTargetTypes.aliases (r : RegisteredTargetTypes) : List String :=
  r.aliasesToTypes.map Prod.fst

/-- Well-formedness of the registry, true of the real
`RegisteredTargetTypes` (built as `{target_type.alias: target_type}`):
keys are distinct and each entry is keyed by its target type's alias. -/
def RegisteredTargetTypes.WF (r : RegisteredTargetTypes) : Prop :=
  (r.aliasesToTypes.map Prod.fst).Nodup ∧
    ∀ p ∈ r.aliasesToTypes, p.2.aliasName = p.1

instance (r : RegisteredTargetTypes) : Decidable r.WF := by
  unfold RegisteredTargetTypes.WF
  infer_instance

/-- A key of a `set_defaults` directive mapping: a single target alias or a
tuple of aliases (`SetDefaultsKeyT = Union[str, Tuple[str, ...]]`). -/
inductive SDKey where
  | single : String → SDKey
  | tuple : List String → SDKey
  deriving DecidableEq

/-- The aliases denoted by a directive key:
`targets = target if isinstance(target, tuple) else (target,)`
(defaults.py line 127). -/
def SDKey.aliasList : SDKey → List String
  | .single a => [a]
  | .tuple as => as

/-- The value a directive maps a kind to: either an actual field-value
mapping or a non-dict value (kept abstractly as its `repr` and type name,
which is all the shape-error message uses). -/
inductive SDVal where
  | dict : List (String × Value) → SDVal
  | notDict : String → String → SDVal

/-- One positional argument of `set_defaults`: either a directive mapping
or a non-dict value (kept as its type name, all the shape error uses). -/
inductive SDArg where
  | dict : List (SDKey × SDVal) → SDArg
  | notDict : String → SDArg

/-- Errors raised by `set_defaults`, carrying exactly the data the source
interpolates into the corresponding message. -/
inductive SDError where
  /-- `ValueError`, defaults.py lines 112-116: a positional argument is not
  a dict; carries the offending type name and the scope address. -/
  | expectedDict : String → Address → SDError
  /-- `ValueError`, defaults.py lines 120-124: the value for a target is not
  a dict; carries the target key, the value's repr and type name, and the
  scope address. -/
  | invalidDefaultValues : SDKey → String → String → Address → SDError
  /-- `ValueError`, defaults.py line 132: unknown target alias; carries the
  alias and the scope address. -/
  | unrecognizedTargetType : String → Address → SDError
  /-- `InvalidFieldException`, defaults.py lines 149-152: invalid field for
  a target; carries the field alias, the target type's alias, and the
  sorted list of valid field aliases. -/
  | unrecognizedField : String → String → List String → SDError
  deriving DecidableEq

/-- A working-defaults / frozen-table field mapping. -/
abbrev FieldMap := List (String × Value)

/-- The two-level defaults mapping (target alias → field alias → value). -/
abbrev Defaults := List (String × FieldMap)

/-- Dict lookup `d.get(k)` on an association list (first matching key). -/
def alGet {β : Type} : List (String × β) → String → Option β
  | [], _ => none
  | (k', v) :: rest, k => if k' = k then some v else alGet rest k

/-- Dict assignment `d[k] = v`: replaces the value at an existing key in
place, otherwise appends the new binding at the end. -/
def alInsert {β : Type} : List (String × β) → String → β → List (String × β)
  | [], k, v => [(k, v)]
  | (k', v') :: rest, k, v =>
    if k' = k then (k', v) :: rest else (k', v') :: alInsert rest k v

/-- Dict update `d.update(e)`: insert every binding of `e` in order. -/
def alUpdate {β : Type} (d e : List (String × β)) : List (String × β) :=
  e.foldl (fun acc p => alInsert acc p.1 p.2) d

/-- Dict removal `d.pop(k, None)`. -/
def alPop {β : Type} : List (String × β) → String → List (String × β)
  | [], _ => []
  | (k', v) :: rest, k =>
    if k' = k then alPop rest k else (k', v) :: alPop rest k

/-- The keys of an association list, in order. -/
def alKeys {β : Type} (d : List (String × β)) : List String :=
  d.map Prod.fst

/-- `BuildFileDefaultsParserState` (defaults.py lines 32-37): the scope
address, the mutable working defaults, and the registry handle. -/
structure BuildFileDefaultsParserState where
  address : Address
  defaults : Defaults
  registeredTargetTypes : RegisteredTargetTypes

/-- `BuildFileDefaultsParserState.create` (defaults.py lines 39-52): seed
the working defaults from the parent's frozen table. -/
def BuildFileDefaultsParserState.create (path : String) (parent : Defaults)
    (reg : RegisteredTargetTypes) : BuildFileDefaultsParserState :=
  { address := { path := path, generatedName := "__defaults__" }
    defaults := parent
    registeredTargetTypes := reg }

/-- `BuildFileDefaultsParserState.get` (defaults.py lines 74-76). -/
def BuildFileDefaultsParserState.get (s : BuildFileDefaultsParserState)
    (targetAlias : String) : FieldMap :=
  (alGet s.defaults targetAlias).getD []

/-- The inner dict comprehension of `get_frozen_defaults` (defaults.py
lines 58-68) for one kind: iterate the stored fields, and for each field
type of the kind whose current or deprecated alias matches the stored
alias, bind the coerced value under the field type's current alias.
Matching nothing just drops the stored field. -/
def freezeFields (addr : Address) (fts : List FieldType) (fields : FieldMap) :
    FieldMap :=
  fields.foldl
    (fun acc p =>
      fts.foldl
        (fun acc2 ft =>
          if p.1 = ft.aliasName ∨ ft.deprecatedAlias = some p.1 then
            alInsert acc2 ft.aliasName (ft.computeValue p.2 addr)
          else acc2)
        acc)
    []

/-- One entry of the `get_frozen_defaults` comprehension. When the kind is
not registered the source raises `KeyError` on `types[target_alias]` —
unless the field mapping is empty, in which case the inner comprehension
never evaluates the lookup and yields an empty `FrozenDict`. -/
def freezeEntry (s : BuildFileDefaultsParserState) (p : String × FieldMap) :
    Option (String × FieldMap) :=
  match p.2 with
  | [] => some (p.1, [])
  | _ =>
    (alGet s.registeredTargetTypes.aliasesToTypes p.1).map
      (fun tt => (p.1, freezeFields s.address tt.fieldTypes p.2))

/-- `BuildFileDefaultsParserState.get_frozen_defaults` (defaults.py lines
54-72), with a `KeyError` on an unregistered kind modelled as `none`. -/
def get_frozen_defaults (s : BuildFileDefaultsParserState) : Option Defaults :=
  s.defaults.mapM (freezeEntry s)

/-- Python methods return their result together with the post-call state of
the receiver; the body of `get_frozen_defaults` never assigns to `self`,
so the post-call state is the input state. -/
def get_frozen_defaults_call (s : BuildFileDefaultsParserState) :
    Option Defaults × BuildFileDefaultsParserState :=
  (get_frozen_defaults s, s)

/-- Lexicographic comparison of strings by code point, as Python's `<=` on
`str` (written out on the character lists so that it evaluates by kernel
reduction). -/
def charListLe : List Char → List Char → Bool
  | [], _ => true
  | _ :: _, [] => false
  | a :: as, b :: bs =>
    if a.toNat < b.toNat then true
    else if b.toNat < a.toNat then false
    else charListLe as bs

/-- String comparison used for the sorted error-message alias list. -/
def strLeB (a b : String) : Bool := charListLe a.data b.data

/-- Distinct elements of a list (the `set(...)` step; which duplicate is
kept is irrelevant after sorting). -/
def dedupRight : List String → List String
  | [] => []
  | a :: rest => if rest.contains a then dedupRight rest else a :: dedupRight rest

/-- Insert a string into a sorted list of strings. -/
def insertSortedString (a : String) : List String → List String
  | [] => [a]
  | b :: rest => if strLeB a b then a :: b :: rest else b :: insertSortedString a rest

/-- The sorted valid-alias list interpolated into the invalid-field error:
`sorted(valid_field_aliases)` where `valid_field_aliases` is a set
(distinct aliases). -/
def sortedFieldAliases (vs : List String) : List String :=
  (dedupRight vs).foldr insertSortedString []

/-- `defaults.setdefault(target_type.alias, {}).update(raw_values)`
(defaults.py line 160): merge a directive's (already validated) field
values for one kind into the scratch accumulator. -/
def mergeInto (scratch : Defaults) (aliasName : String) (raw : FieldMap) :
    Defaults :=
  alInsert scratch aliasName (alUpdate ((alGet scratch aliasName).getD []) raw)

/-- The per-alias loop of `_process_defaults` (defaults.py lines 128-160):
look the alias up in the registry, validate the directive's field aliases
(silently dropping unknown ones in `ignore_unknown_fields` mode, raising on
the first unknown one otherwise), then merge into the scratch accumulator
under the target type's canonical alias. -/
def processAliases (s : BuildFileDefaultsParserState) (ignoreUnknownFields : Bool)
    (fields : FieldMap) : Defaults → List String → Except SDError Defaults
  | scratch, [] => .ok scratch
  | scratch, a :: rest =>
    match alGet s.registeredTargetTypes.aliasesToTypes a with
    | none => .error (.unrecognizedTargetType a s.address)
    | some tt =>
      if ignoreUnknownFields then
        processAliases s ignoreUnknownFields fields
          (mergeInto scratch tt.aliasName
            (fields.filter (fun p => decide (p.1 ∈ tt.validFieldAliases))))
          rest
      else
        match fields.find? (fun p => decide (p.1 ∉ tt.validFieldAliases)) with
        | some pr =>
          .error (.unrecognizedField pr.1 tt.aliasName
            (sortedFieldAliases tt.validFieldAliases))
        | none =>
          processAliases s ignoreUnknownFields fields
            (mergeInto scratch tt.aliasName fields) rest

/-- The per-entry loop of `_process_defaults` (defaults.py lines 119-160):
check each directive value is a dict, then process each alias the key
denotes. -/
def processEntries (s : BuildFileDefaultsParserState) (ignoreUnknownFields : Bool) :
    Defaults → List (SDKey × SDVal) → Except SDError Defaults
  | scratch, [] => .ok scratch
  | scratch, (target, default) :: rest =>
    match default with
    | .notDict r tn =>
      .error (.invalidDefaultValues target r tn s.address)
    | .dict fields =>
      match processAliases s ignoreUnknownFields fields scratch
          target.aliasList with
      | .error e => .error e
      | .ok scratch' => processEntries s ignoreUnknownFields scratch' rest

/-- `BuildFileDefaultsParserState._process_defaults` (defaults.py lines
106-160) applied to one positional argument: reject non-dict arguments,
then process the entries. -/
def processDefaultsArg (s : BuildFileDefaultsParserState) (scratch : Defaults)
    (arg : SDArg) (ignoreUnknownFields : Bool) : Except SDError Defaults :=
  match arg with
  | .notDict tn => .error (.expectedDict tn s.address)
  | .dict entries => processEntries s ignoreUnknownFields scratch entries

/-- The `for arg in args` loop of `set_defaults` (defaults.py lines 96-97). -/
def processArgsList (s : BuildFileDefaultsParserState) :
    Defaults → List SDArg → Except SDError Defaults
  | scratch, [] => .ok scratch
  | scratch, arg :: rest =>
    match processDefaultsArg s scratch arg false with
    | .error e => .error e
    | .ok scratch' => processArgsList s scratch' rest

/-- The final loop of `set_defaults` (defaults.py lines 99-104): write the
scratch accumulator back into `self.defaults`, dropping kinds whose
resulting field mapping is empty. Kinds absent from the scratch accumulator
are left untouched. -/
def commitDefaults (d : Defaults) (scratch : Defaults) : Defaults :=
  scratch.foldl
    (fun acc p => if p.2.isEmpty then alPop acc p.1 else alInsert acc p.1 p.2)
    d

/-- `BuildFileDefaultsParserState.set_defaults` (defaults.py lines 78-104).
The scratch accumulator starts from a copy of the working defaults iff
`extend`, the optional `all` mapping is expanded to a single directive
keyed by the tuple of every registered alias and processed with
`ignore_unknown_fields = true`, then the positional directives are
processed in order, and finally the scratch is committed. The `kwargs`
parameter is accepted and never read, as in the source. -/
def set_defaults (s : BuildFileDefaultsParserState) (args : List SDArg)
    (allDefaults : Option FieldMap) (extend : Bool) (kwargs : FieldMap) :
    Except SDError BuildFileDefaultsParserState :=
  let scratch0 : Defaults := if extend then s.defaults else []
  let afterAll : Except SDError Defaults :=
    match allDefaults with
    | none => .ok scratch0
    | some allMap =>
      processDefaultsArg s scratch0
        (.dict [(.tuple s.registeredTargetTypes.aliases, .dict allMap)]) true
  match afterAll with
  | .error e => .error e
  | .ok scratch1 =>
    match processArgsList s scratch1 args with
    | .error e => .error e
    | .ok scratch2 =>
      .ok { s with defaults := commitDefaults s.defaults scratch2 }

/-- The state of the engine as observed after a `set_defaults` call,
whether or not it raised: an uncaught exception propagates out of the
method before the final loop — the only writer of `self.defaults` — has
run, leaving the receiver as it was. -/
def set_defaults_observed (s : BuildFileDefaultsParserState) (args : List SDArg)
    (allDefaults : Option FieldMap) (extend : Bool) (kwargs : FieldMap) :
    BuildFileDefaultsParserState :=
  match set_defaults s args allDefaults extend kwargs with
  | .ok s' => s'
  | .error _ => s

/-- Concrete field type mirroring `Tags` (`tags`, no deprecated alias,
identity coercion for the purposes of this development). -/
def tagsFieldType : FieldType :=
  { aliasName := "tags", deprecatedAlias := none
    computeValue := fun v _ => v }

/-- Concrete field type mirroring `DescriptionField`, given a deprecated
alias `desc` here to exercise the alias-normalisation path of
`get_frozen_defaults`. -/
def descriptionFieldType : FieldType :=
  { aliasName := "description", deprecatedAlias := some "desc"
    computeValue := fun v _ => v }

/-- Concrete field type mirroring `Dependencies`. -/
def dependenciesFieldType : FieldType :=
  { aliasName := "dependencies", deprecatedAlias := none
    computeValue := fun v _ => v }

/-- The field types shared by the fixture target types (as for
`GenericTarget` in `defaults_test.py`). -/
def genericFieldTypes : List FieldType :=
  [dependenciesFieldType, descriptionFieldType, tagsFieldType]

/-- A fixture target type with the given alias and the generic fields; the
valid field aliases are the current and deprecated aliases of its field
types. -/
def mkTestTargetType (a : String) : TargetType :=
  { aliasName := a
    fieldTypes := genericFieldTypes
    validFieldAliases := ["dependencies", "desc", "description", "tags"] }

/-- The registry of `defaults_test.py`: `target`, `test_type_1`,
`test_type_2`, all with the generic fields. -/
def testRegistry : RegisteredTargetTypes :=
  ⟨[("target", mkTestTargetType "target"),
    ("test_type_1", mkTestTargetType "test_type_1"),
    ("test_type_2", mkTestTargetType "test_type_2")]⟩

theorem alGet_alInsert_self {β : Type} (d : List (String × β)) (k : String) (v : β) :
    alGet (alInsert d k v) k = some v := by
  induction d with
  | nil => simp [alInsert, alGet]
  | cons p rest ih =>
    by_cases h : p.1 = k
    · simp [alInsert, alGet, h]
    · simp [alInsert, alGet, h, ih]

theorem alGet_alInsert_ne {β : Type} (d : List (String × β)) (k k' : String) (v : β)
    (h : k ≠ k') : alGet (alInsert d k v) k' = alGet d k' := by
  induction d with
  | nil => simp [alInsert, alGet, h]
  | cons p rest ih =>
    by_cases hp : p.1 = k
    · simp [alInsert, alGet, hp, h]
    · by_cases hp' : p.1 = k'
      · subst hp'
        simp [alInsert, alGet, hp]
      · simp [alInsert, alGet, hp, hp', ih]

theorem alGet_alPop_self {β : Type} (d : List (String × β)) (k : String) :
    alGet (alPop d k) k = none := by
  induction d with
  | nil => simp [alPop, alGet]
  | cons p rest ih =>
    by_cases h : p.1 = k
    · simp [alPop, h, ih]
    · simp [alPop, alGet, h, ih]

theorem alGet_alPop_ne {β : Type} (d : List (String × β)) (k k' : String)
    (h : k ≠ k') : alGet (alPop d k) k' = alGet d k' := by
  induction d with
  | nil => simp [alPop]
  | cons p rest ih =>
    by_cases hp : p.1 = k
    · have hp' : ¬ p.1 = k' := by rw [hp]; exact h
      simp [alPop, alGet, hp, hp', h, ih]
    · simp [alPop, alGet, hp, ih]

theorem alGet_eq_none_iff {β : Type} (d : List (String × β)) (k : String) :
    alGet d k = none ↔ k ∉ alKeys d := by
  induction d with
  | nil => simp [alGet, alKeys]
  | cons p rest ih =>
    by_cases h : p.1 = k
    · simp [alGet, alKeys, h]
    · simp [alGet, alKeys, h, ih]
      intro hk
      exact fun he => h he.symm

theorem alGet_isSome_of_mem_keys {β : Type} (d : List (String × β)) (k : String)
    (h : k ∈ alKeys d) : (alGet d k).isSome := by
  cases hg : alGet d k with
  | none => exact absurd h ((alGet_eq_none_iff d k).mp hg)
  | some v => rfl

theorem alGet_mem {β : Type} (d : List (String × β)) (k : String) (v : β)
    (h : alGet d k = some v) : (k, v) ∈ d := by
  induction d with
  | nil => simp [alGet] at h
  | cons p rest ih =>
    obtain ⟨k', v'⟩ := p
    by_cases hp : k' = k
    · simp [alGet, hp] at h
      rw [← hp, ← h]
      exact List.mem_cons_self _ _
    · simp [alGet, hp] at h
      exact List.mem_cons_of_mem _ (ih h)

theorem alKeys_cons {β : Type} (p : String × β) (rest : List (String × β)) :
    alKeys (p :: rest) = p.1 :: alKeys rest := rfl

theorem alKeysP_cons {β : Type} (pk : String) (pv : β) (rest : List (String × β)) :
    alKeys ((pk, pv) :: rest) = pk :: alKeys rest := rfl

theorem alInsert_cons_eq {β : Type} (pk : String) (pv : β) (rest : List (String × β))
    (k : String) (v : β) (h : pk = k) :
    alInsert ((pk, pv) :: rest) k v = (pk, v) :: rest := by
  simp [alInsert, h]

theorem alInsert_cons_ne {β : Type} (pk : String) (pv : β) (rest : List (String × β))
    (k : String) (v : β) (h : ¬ pk = k) :
    alInsert ((pk, pv) :: rest) k v = (pk, pv) :: alInsert rest k v := by
  simp [alInsert, h]

theorem alGet_cons_eq {β : Type} (pk : String) (pv : β) (rest : List (String × β))
    (k : String) (h : pk = k) : alGet ((pk, pv) :: rest) k = some pv := by
  simp [alGet, h]

theorem alGet_cons_ne {β : Type} (pk : String) (pv : β) (rest : List (String × β))
    (k : String) (h : ¬ pk = k) : alGet ((pk, pv) :: rest) k = alGet rest k := by
  simp [alGet, h]

theorem alGet_of_mem_nodup {β : Type} (d : List (String × β)) (k : String) (v : β)
    (hn : (alKeys d).Nodup) (hm : (k, v) ∈ d) : alGet d k = some v := by
  induction d with
  | nil => simp at hm
  | cons p rest ih =>
    obtain ⟨pk, pv⟩ := p
    rw [alKeysP_cons] at hn
    have hh := List.nodup_cons.mp hn
    rcases List.mem_cons.mp hm with he | ht
    · rw [← he]
      simp [alGet]
    · have hk : k ∈ alKeys rest := List.mem_map_of_mem Prod.fst ht
      have hne : ¬ pk = k := fun hpk => hh.1 (hpk ▸ hk)
      simp only [alGet, hne, if_false]
      exact ih hh.2 ht

theorem mem_alKeys_alInsert {β : Type} (d : List (String × β)) (k a : String) (v : β)
    (h : a ∈ alKeys (alInsert d k v)) : a ∈ alKeys d ∨ a = k := by
  induction d with
  | nil =>
    simp [alInsert, alKeys] at h
    exact Or.inr h
  | cons p rest ih =>
    obtain ⟨pk, pv⟩ := p
    by_cases hp : pk = k
    · rw [alInsert_cons_eq pk pv rest k v hp, alKeysP_cons] at h
      rw [alKeysP_cons]
      rcases List.mem_cons.mp h with h1 | h1
      · exact Or.inl (List.mem_cons.mpr (Or.inl h1))
      · exact Or.inl (List.mem_cons.mpr (Or.inr h1))
    · rw [alInsert_cons_ne pk pv rest k v hp, alKeysP_cons] at h
      rw [alKeysP_cons]
      rcases List.mem_cons.mp h with h1 | h1
      · exact Or.inl (List.mem_cons.mpr (Or.inl h1))
      · rcases ih h1 with h2 | h2
        · exact Or.inl (List.mem_cons.mpr (Or.inr h2))
        · exact Or.inr h2

theorem alKeys_alInsert_nodup {β : Type} (d : List (String × β)) (k : String) (v : β)
    (hn : (alKeys d).Nodup) : (alKeys (alInsert d k v)).Nodup := by
  induction d with
  | nil => simp [alInsert, alKeys]
  | cons p rest ih =>
    obtain ⟨pk, pv⟩ := p
    rw [alKeysP_cons] at hn
    have hh := List.nodup_cons.mp hn
    by_cases hp : pk = k
    · rw [alInsert_cons_eq pk pv rest k v hp, alKeysP_cons]
      exact List.nodup_cons.mpr hh
    · rw [alInsert_cons_ne pk pv rest k v hp, alKeysP_cons]
      refine List.nodup_cons.mpr ⟨?_, ih hh.2⟩
      intro hmem
      rcases mem_alKeys_alInsert rest k pk v hmem with h' | h'
      · exact hh.1 h'
      · exact hp h'

theorem alInsert_of_not_mem {β : Type} (d : List (String × β)) (k : String) (v : β)
    (h : k ∉ alKeys d) : alInsert d k v = d ++ [(k, v)] := by
  induction d with
  | nil => simp [alInsert]
  | cons p rest ih =>
    obtain ⟨pk, pv⟩ := p
    rw [alKeysP_cons] at h
    have hp : ¬ pk = k := fun he => h (List.mem_cons.mpr (Or.inl he.symm))
    simp only [alInsert, hp, if_false, List.cons_append, List.cons.injEq, true_and]
    exact ih (fun hm => h (List.mem_cons.mpr (Or.inr hm)))

theorem alUpdate_cons {β : Type} (d : List (String × β)) (p : String × β)
    (rest : List (String × β)) :
    alUpdate d (p :: rest) = alUpdate (alInsert d p.1 p.2) rest := rfl

theorem alUpdate_nil_left {β : Type} (e : List (String × β))
    (hn : (alKeys e).Nodup) : alUpdate [] e = e := by
  suffices h : ∀ (d : List (String × β)), (∀ a ∈ alKeys e, a ∉ alKeys d) →
      (alKeys e).Nodup → alUpdate d e = d ++ e by
    simpa using h [] (by simp [alKeys]) hn
  clear hn
  induction e with
  | nil => intro d _ _; simp [alUpdate]
  | cons p rest ih =>
    intro d hd hn
    obtain ⟨pk, pv⟩ := p
    rw [alKeysP_cons] at hn
    have hh := List.nodup_cons.mp hn
    have h1 : pk ∉ alKeys d := hd pk (List.mem_cons.mpr (Or.inl rfl))
    rw [alUpdate_cons, alInsert_of_not_mem d pk pv h1,
      ih (d ++ [(pk, pv)]) ?_ hh.2]
    · simp
    · intro a ha
      have had : a ∉ alKeys d := hd a (List.mem_cons.mpr (Or.inr ha))
      intro hmem
      rw [alKeys, List.map_append, List.mem_append] at hmem
      rcases hmem with h' | h'
      · exact had h'
      · simp at h'
        rw [h'] at ha
        exact hh.1 ha

theorem alGet_alUpdate_not_mem {β : Type} (d e : List (String × β)) (k : String)
    (h : k ∉ alKeys e) : alGet (alUpdate d e) k = alGet d k := by
  induction e generalizing d with
  | nil => simp [alUpdate]
  | cons p rest ih =>
    obtain ⟨pk, pv⟩ := p
    rw [alKeysP_cons] at h
    have hp : pk ≠ k := fun he => h (List.mem_cons.mpr (Or.inl he.symm))
    rw [alUpdate_cons,
      ih (alInsert d pk pv) (fun hm => h (List.mem_cons.mpr (Or.inr hm)))]
    exact alGet_alInsert_ne d pk k pv hp

theorem alGet_alUpdate_mem {β : Type} (d e : List (String × β)) (k : String) (v : β)
    (hn : (alKeys e).Nodup) (hm : (k, v) ∈ e) : alGet (alUpdate d e) k = some v := by
  induction e generalizing d with
  | nil => simp at hm
  | cons p rest ih =>
    obtain ⟨pk, pv⟩ := p
    rw [alKeysP_cons] at hn
    have hh := List.nodup_cons.mp hn
    rcases List.mem_cons.mp hm with he | ht
    · have hek : pk = k := congrArg Prod.fst he.symm
      have hev : pv = v := congrArg Prod.snd he.symm
      subst hek
      subst hev
      have hk : pk ∉ alKeys rest := hh.1
      rw [alUpdate_cons, alGet_alUpdate_not_mem _ _ _ hk]
      exact alGet_alInsert_self d pk pv
    · rw [alUpdate_cons]
      exact ih (alInsert d pk pv) hh.2 ht

theorem alPop_subset {β : Type} (d : List (String × β)) (k : String) (p : String × β)
    (h : p ∈ alPop d k) : p ∈ d := by
  induction d with
  | nil => simp [alPop] at h
  | cons q rest ih =>
    obtain ⟨qk, qv⟩ := q
    by_cases hq : qk = k
    · simp only [alPop, hq, if_true] at h
      exact List.mem_cons_of_mem _ (ih h)
    · simp only [alPop, hq, if_false] at h
      rcases List.mem_cons.mp h with h1 | h1
      · exact List.mem_cons.mpr (Or.inl h1)
      · exact List.mem_cons_of_mem _ (ih h1)

theorem alGet_commitDefaults_not_mem (d sc : Defaults) (k : String)
    (h : k ∉ alKeys sc) : alGet (commitDefaults d sc) k = alGet d k := by
  induction sc generalizing d with
  | nil => rfl
  | cons p rest ih =>
    obtain ⟨pk, pv⟩ := p
    rw [alKeysP_cons] at h
    have hp : pk ≠ k := fun he => h (List.mem_cons.mpr (Or.inl he.symm))
    have step : commitDefaults d ((pk, pv) :: rest)
        = commitDefaults (if pv.isEmpty then alPop d pk else alInsert d pk pv) rest := rfl
    rw [step, ih _ (fun hm => h (List.mem_cons.mpr (Or.inr hm)))]
    by_cases he : pv.isEmpty
    · simp only [he, if_true]
      exact alGet_alPop_ne d pk k hp
    · simp only [he, if_false]
      exact alGet_alInsert_ne d pk k pv hp

theorem alGet_commitDefaults_mem (d sc : Defaults) (k : String) (m : FieldMap)
    (hn : (alKeys sc).Nodup) (hm : alGet sc k = some m) :
    alGet (commitDefaults d sc) k = if m.isEmpty then none else some m := by
  induction sc generalizing d with
  | nil => simp [alGet] at hm
  | cons p rest ih =>
    obtain ⟨pk, pv⟩ := p
    rw [alKeysP_cons] at hn
    have hh := List.nodup_cons.mp hn
    have step : commitDefaults d ((pk, pv) :: rest)
        = commitDefaults (if pv.isEmpty then alPop d pk else alInsert d pk pv) rest := rfl
    by_cases hp : pk = k
    · rw [alGet_cons_eq pk pv rest k hp] at hm
      have hmv : pv = m := Option.some.inj hm
      subst hmv
      have hk : k ∉ alKeys rest := hp ▸ hh.1
      rw [step, alGet_commitDefaults_not_mem _ _ _ hk]
      by_cases he : pv.isEmpty
      · simp only [he, if_true]
        exact hp ▸ alGet_alPop_self d pk
      · simp only [he, if_false]
        exact hp ▸ alGet_alInsert_self d pk pv
    · rw [alGet_cons_ne pk pv rest k hp] at hm
      rw [step]
      exact ih _ hh.2 hm

theorem alGet_filter_eq_none (d : FieldMap) (fa : String) (valid : List String)
    (h : fa ∉ valid) :
    alGet (d.filter (fun p => decide (p.1 ∈ valid))) fa = none := by
  induction d with
  | nil => rfl
  | cons p rest ih =>
    obtain ⟨pk, pv⟩ := p
    by_cases hp : pk ∈ valid
    · have hne : ¬ pk = fa := fun he => h (he ▸ hp)
      rw [List.filter_cons_of_pos (by simpa using hp), alGet_cons_ne pk pv _ fa hne]
      exact ih
    · rw [List.filter_cons_of_neg (by simpa using hp)]
      exact ih

theorem alKeys_filter_sublist {β : Type} (d : List (String × β))
    (pred : String × β → Bool) :
    (alKeys (d.filter pred)).Sublist (alKeys d) := by
  induction d with
  | nil => simp [alKeys]
  | cons p rest ih =>
    by_cases hp : pred p
    · rw [List.filter_cons_of_pos hp, alKeys_cons, alKeys_cons]
      exact List.Sublist.cons₂ p.1 ih
    · rw [List.filter_cons_of_neg (by simpa using hp), alKeys_cons]
      exact List.Sublist.cons p.1 ih

theorem alKeys_filter_nodup {β : Type} (d : List (String × β))
    (pred : String × β → Bool) (hn : (alKeys d).Nodup) :
    (alKeys (d.filter pred)).Nodup :=
  (alKeys_filter_sublist d pred).nodup hn

theorem isEmpty_false_of_alGet {β : Type} (d : List (String × β)) (k : String) (v : β)
    (h : alGet d k = some v) : d.isEmpty = false := by
  cases d with
  | nil => simp [alGet] at h
  | cons p rest => rfl

theorem alGet_mergeInto_self (sc : Defaults) (a : String) (raw : FieldMap) :
    alGet (mergeInto sc a raw) a = some (alUpdate ((alGet sc a).getD []) raw) :=
  alGet_alInsert_self sc a _

theorem alGet_mergeInto_ne (sc : Defaults) (a k : String) (raw : FieldMap)
    (h : a ≠ k) : alGet (mergeInto sc a raw) k = alGet sc k :=
  alGet_alInsert_ne sc a k _ h

theorem mergeInto_nodup (sc : Defaults) (a : String) (raw : FieldMap)
    (hn : (alKeys sc).Nodup) : (alKeys (mergeInto sc a raw)).Nodup :=
  alKeys_alInsert_nodup sc a _ hn

theorem processAliases_cons_some (s : BuildFileDefaultsParserState)
    (fields : FieldMap) (sc : Defaults) (a : String) (rest : List String)
    (tt : TargetType)
    (hg : alGet s.registeredTargetTypes.aliasesToTypes a = some tt) :
    processAliases s true fields sc (a :: rest)
      = processAliases s true fields
          (mergeInto sc tt.aliasName
            (fields.filter (fun p => decide (p.1 ∈ tt.validFieldAliases))))
          rest := by
  simp only [processAliases, hg, if_true]

theorem processAliases_cons_none (s : BuildFileDefaultsParserState) (ig : Bool)
    (fields : FieldMap) (sc : Defaults) (a : String) (rest : List String)
    (hg : alGet s.registeredTargetTypes.aliasesToTypes a = none) :
    processAliases s ig fields sc (a :: rest)
      = .error (.unrecognizedTargetType a s.address) := by
  simp only [processAliases, hg]

theorem processAliases_cons_false_ok (s : BuildFileDefaultsParserState)
    (fields : FieldMap) (sc : Defaults) (a : String) (rest : List String)
    (tt : TargetType)
    (hg : alGet s.registeredTargetTypes.aliasesToTypes a = some tt)
    (hf : fields.find? (fun p => decide (p.1 ∉ tt.validFieldAliases)) = none) :
    processAliases s false fields sc (a :: rest)
      = processAliases s false fields (mergeInto sc tt.aliasName fields) rest := by
  have hf2 : fields.find? (fun p => !decide (p.1 ∈ tt.validFieldAliases)) = none := by
    simp only [decide_not] at hf
    exact hf
  simp [processAliases, hg]
  rw [hf2]

theorem processAliases_cons_false_err (s : BuildFileDefaultsParserState)
    (fields : FieldMap) (sc : Defaults) (a : String) (rest : List String)
    (tt : TargetType) (pr : String × Value)
    (hg : alGet s.registeredTargetTypes.aliasesToTypes a = some tt)
    (hf : fields.find? (fun p => decide (p.1 ∉ tt.validFieldAliases)) = some pr) :
    processAliases s false fields sc (a :: rest)
      = .error (.unrecognizedField pr.1 tt.aliasName
          (sortedFieldAliases tt.validFieldAliases)) := by
  have hf2 : fields.find? (fun p => !decide (p.1 ∈ tt.validFieldAliases)) = some pr := by
    simp only [decide_not] at hf
    exact hf
  simp [processAliases, hg]
  rw [hf2]

theorem processAliases_nodup (s : BuildFileDefaultsParserState) (ig : Bool)
    (fields : FieldMap) (as : List String) :
    ∀ (sc sc' : Defaults), processAliases s ig fields sc as = .ok sc' →
      (alKeys sc).Nodup → (alKeys sc').Nodup := by
  induction as with
  | nil =>
    intro sc sc' h hn
    simp only [processAliases] at h
    cases h
    exact hn
  | cons a rest ih =>
    intro sc sc' h hn
    cases hg : alGet s.registeredTargetTypes.aliasesToTypes a with
    | none => rw [processAliases_cons_none s ig fields sc a rest hg] at h; cases h
    | some tt =>
      cases ig with
      | true =>
        rw [processAliases_cons_some s fields sc a rest tt hg] at h
        exact ih _ _ h (mergeInto_nodup _ _ _ hn)
      | false =>
        cases hf : fields.find? (fun p => decide (p.1 ∉ tt.validFieldAliases)) with
        | some pr =>
          rw [processAliases_cons_false_err s fields sc a rest tt pr hg hf] at h
          cases h
        | none =>
          rw [processAliases_cons_false_ok s fields sc a rest tt hg hf] at h
          exact ih _ _ h (mergeInto_nodup _ _ _ hn)

theorem processAliases_ignore_spec (s : BuildFileDefaultsParserState)
    (fields : FieldMap) (as : List String)
    (hWF : s.registeredTargetTypes.WF)
    (hmem : ∀ a ∈ as, a ∈ alKeys s.registeredTargetTypes.aliasesToTypes)
    (hnd : as.Nodup) :
    ∀ (sc : Defaults),
    ∃ sc', processAliases s true fields sc as = .ok sc' ∧
      (∀ k, k ∉ as → alGet sc' k = alGet sc k) ∧
      (∀ k tt, k ∈ as →
        alGet s.registeredTargetTypes.aliasesToTypes k = some tt →
        alGet sc' k = some (alUpdate ((alGet sc k).getD [])
          (fields.filter (fun p => decide (p.1 ∈ tt.validFieldAliases))))) := by
  induction as with
  | nil =>
    intro sc
    exact ⟨sc, rfl, fun k _ => rfl, fun k tt hk _ => absurd hk (List.not_mem_nil k)⟩
  | cons a rest ih =>
    intro sc
    have hmem_a : a ∈ alKeys s.registeredTargetTypes.aliasesToTypes :=
      hmem a (List.mem_cons.mpr (Or.inl rfl))
    cases hg : alGet s.registeredTargetTypes.aliasesToTypes a with
    | none => exact absurd hmem_a ((alGet_eq_none_iff _ _).mp hg)
    | some tta =>
      have hta : tta.aliasName = a := hWF.2 (a, tta) (alGet_mem _ _ _ hg)
      have hnd' := List.nodup_cons.mp hnd
      obtain ⟨sc', hok, hnotin, hin⟩ :=
        ih (fun b hb => hmem b (List.mem_cons.mpr (Or.inr hb))) hnd'.2
          (mergeInto sc tta.aliasName
            (fields.filter (fun p => decide (p.1 ∈ tta.validFieldAliases))))
      refine ⟨sc', ?_, ?_, ?_⟩
      · rw [processAliases_cons_some s fields sc a rest tta hg]
        exact hok
      · intro k hk
        have hka : k ≠ a := fun he => hk (List.mem_cons.mpr (Or.inl he))
        have hkr : k ∉ rest := fun hm => hk (List.mem_cons.mpr (Or.inr hm))
        rw [hnotin k hkr, alGet_mergeInto_ne _ _ _ _ (hta ▸ fun he => hka he.symm)]
      · intro k tt hk hgk
        rcases List.mem_cons.mp hk with he | hr
        · subst he
          have htt : tt = tta := by
            rw [hg] at hgk
            exact (Option.some.inj hgk).symm
          subst htt
          have hkr : k ∉ rest := hnd'.1
          rw [hnotin k hkr, hta, alGet_mergeInto_self]
        · have hka : k ≠ a := fun he => hnd'.1 (he ▸ hr)
          rw [hin k tt hr hgk,
            alGet_mergeInto_ne _ _ _ _ (hta ▸ fun he => hka he.symm)]

theorem processEntries_single (s : BuildFileDefaultsParserState) (ig : Bool)
    (sc : Defaults) (key : SDKey) (fields : FieldMap) :
    processEntries s ig sc [(key, .dict fields)]
      = processAliases s ig fields sc key.aliasList := by
  cases hpa : processAliases s ig fields sc key.aliasList with
  | error e => simp [processEntries, hpa]
  | ok sc' => simp [processEntries, hpa]

theorem processArgsList_single (s : BuildFileDefaultsParserState) (sc : Defaults)
    (arg : SDArg) :
    processArgsList s sc [arg] = processDefaultsArg s sc arg false := by
  cases hpa : processDefaultsArg s sc arg false with
  | error e => simp [processArgsList, hpa]
  | ok sc' => simp [processArgsList, hpa]

theorem aliases_eq_alKeys (r : RegisteredTargetTypes) :
    r.aliases = alKeys r.aliasesToTypes := rfl

theorem processAll_spec (s : BuildFileDefaultsParserState) (ma : FieldMap)
    (hWF : s.registeredTargetTypes.WF) (sc : Defaults) :
    ∃ sc', processDefaultsArg s sc
        (.dict [(.tuple s.registeredTargetTypes.aliases, .dict ma)]) true = .ok sc' ∧
      (∀ k, k ∉ alKeys s.registeredTargetTypes.aliasesToTypes →
        alGet sc' k = alGet sc k) ∧
      (∀ k tt, alGet s.registeredTargetTypes.aliasesToTypes k = some tt →
        alGet sc' k = some (alUpdate ((alGet sc k).getD [])
          (ma.filter (fun p => decide (p.1 ∈ tt.validFieldAliases))))) := by
  obtain ⟨sc', hok, hnotin, hin⟩ :=
    processAliases_ignore_spec s ma s.registeredTargetTypes.aliases hWF
      (fun a ha => ha) hWF.1 sc
  refine ⟨sc', ?_, hnotin, ?_⟩
  · rw [show processDefaultsArg s sc
        (.dict [(.tuple s.registeredTargetTypes.aliases, .dict ma)]) true
        = processEntries s true sc
            [(.tuple s.registeredTargetTypes.aliases, .dict ma)] from rfl,
      processEntries_single]
    exact hok
  · intro k tt hgk
    have hk : k ∈ s.registeredTargetTypes.aliases := by
      by_contra hk
      rw [(alGet_eq_none_iff _ _).mpr hk] at hgk
      cases hgk
    exact hin k tt hk hgk

theorem processAliases_unknown (s : BuildFileDefaultsParserState)
    (fields : FieldMap) (post : List String) (a : String)
    (ha : alGet s.registeredTargetTypes.aliasesToTypes a = none) :
    ∀ (pre : List String) (sc : Defaults),
    (∀ b ∈ pre, ∃ tb, alGet s.registeredTargetTypes.aliasesToTypes b = some tb ∧
      fields.find? (fun p => decide (p.1 ∉ tb.validFieldAliases)) = none) →
    processAliases s false fields sc (pre ++ a :: post)
      = .error (.unrecognizedTargetType a s.address) := by
  intro pre
  induction pre with
  | nil =>
    intro sc _
    exact processAliases_cons_none s false fields sc a post ha
  | cons b rest ih =>
    intro sc hpre
    obtain ⟨tb, hb, hfind⟩ := hpre b (List.mem_cons.mpr (Or.inl rfl))
    rw [List.cons_append,
      processAliases_cons_false_ok s fields sc b (rest ++ a :: post) tb hb hfind]
    exact ih _ (fun c hc => hpre c (List.mem_cons.mpr (Or.inr hc)))

theorem freezeEntry_key (st : BuildFileDefaultsParserState) (p : String × FieldMap)
    (q : String × FieldMap) (h : freezeEntry st p = some q) : q.1 = p.1 := by
  obtain ⟨k, fs⟩ := p
  cases fs with
  | nil =>
    simp [freezeEntry] at h
    rw [← h]
  | cons f fr =>
    cases halg : alGet st.registeredTargetTypes.aliasesToTypes k with
    | none => simp [freezeEntry, halg] at h
    | some tt =>
      simp [freezeEntry, halg] at h
      rw [← h]

theorem freeze_ok (st : BuildFileDefaultsParserState) :
    ∀ (d : Defaults),
    (∀ p ∈ d, p.2 = [] ∨ (alGet st.registeredTargetTypes.aliasesToTypes p.1).isSome) →
    ∃ t, List.mapM (freezeEntry st) d = some t ∧ alKeys t = alKeys d := by
  intro d
  induction d with
  | nil => exact fun _ => ⟨[], rfl, rfl⟩
  | cons p rest ih =>
    intro h
    obtain ⟨t', ht', hkeys⟩ := ih (fun q hq => h q (List.mem_cons_of_mem _ hq))
    have hq : ∃ e, freezeEntry st p = some (p.1, e) := by
      obtain ⟨k, fs⟩ := p
      cases fs with
      | nil => exact ⟨[], rfl⟩
      | cons f fr =>
        rcases h (k, f :: fr) (List.mem_cons.mpr (Or.inl rfl)) with he | hsome
        · cases he
        · cases halg : alGet st.registeredTargetTypes.aliasesToTypes k with
          | none => rw [halg] at hsome; cases hsome
          | some tt =>
            exact ⟨freezeFields st.address tt.fieldTypes (f :: fr),
              by simp [freezeEntry, halg]⟩
    obtain ⟨e, he⟩ := hq
    refine ⟨(p.1, e) :: t', ?_, ?_⟩
    · rw [List.mapM_cons, he, ht']
      rfl
    · show p.1 :: alKeys t' = alKeys (p :: rest)
      rw [alKeys_cons, hkeys]

theorem mapM_freezeEntry_alGet (st : BuildFileDefaultsParserState) :
    ∀ (d t : Defaults), List.mapM (freezeEntry st) d = some t →
    ∀ (k : String) (fs : FieldMap), alGet d k = some fs →
    ∃ e, freezeEntry st (k, fs) = some (k, e) ∧ alGet t k = some e := by
  intro d
  induction d with
  | nil =>
    intro t ht k fs h
    simp [alGet] at h
  | cons p rest ih =>
    intro t ht k fs h
    obtain ⟨pk, pfs⟩ := p
    rw [List.mapM_cons] at ht
    cases hfe : freezeEntry st (pk, pfs) with
    | none => rw [hfe] at ht; cases ht
    | some q =>
      rw [hfe] at ht
      cases hrest : List.mapM (freezeEntry st) rest with
      | none => rw [hrest] at ht; cases ht
      | some t' =>
        rw [hrest] at ht
        have htq : t = q :: t' := (Option.some.inj ht).symm
        have hqk : q.1 = pk := freezeEntry_key st (pk, pfs) q hfe
        by_cases hp : pk = k
        · subst hp
          rw [alGet_cons_eq pk pfs rest pk rfl] at h
          have hfs : pfs = fs := Option.some.inj h
          subst hfs
          have hq2 : q = (pk, q.2) := by
            rw [← hqk]
          refine ⟨q.2, ?_, ?_⟩
          · rw [hfe, hq2]
          · rw [htq]
            rw [show alGet (q :: t') pk = if q.1 = pk then some q.2 else alGet t' pk
              from rfl, hqk, if_pos rfl]
        · rw [alGet_cons_ne pk pfs rest k hp] at h
          obtain ⟨e, he, hget⟩ := ih t' hrest k fs h
          refine ⟨e, he, ?_⟩
          rw [htq, show alGet (q :: t') k = if q.1 = k then some q.2 else alGet t' k
            from rfl, hqk, if_neg hp]
          exact hget

theorem freezeInner_no_match (addr : Address) (fa : String) (v : Value) :
    ∀ (l : List FieldType) (acc : FieldMap),
    (∀ ft' ∈ l, ¬(fa = ft'.aliasName ∨ ft'.deprecatedAlias = some fa)) →
    l.foldl (fun acc2 ft =>
      if fa = ft.aliasName ∨ ft.deprecatedAlias = some fa then
        alInsert acc2 ft.aliasName (ft.computeValue v addr)
      else acc2) acc = acc := by
  intro l
  induction l with
  | nil => intro acc _; rfl
  | cons ft0 lr ih =>
    intro acc hl
    rw [List.foldl_cons, if_neg (hl ft0 (List.mem_cons.mpr (Or.inl rfl)))]
    exact ih acc (fun f hf => hl f (List.mem_cons.mpr (Or.inr hf)))

theorem freezeFields_single_match (addr : Address) (l1 : List FieldType)
    (ft : FieldType) (l2 : List FieldType) (fa : String) (v : Value)
    (hm : fa = ft.aliasName ∨ ft.deprecatedAlias = some fa)
    (h1 : ∀ ft' ∈ l1, ¬(fa = ft'.aliasName ∨ ft'.deprecatedAlias = some fa))
    (h2 : ∀ ft' ∈ l2, ¬(fa = ft'.aliasName ∨ ft'.deprecatedAlias = some fa)) :
    freezeFields addr (l1 ++ ft :: l2) [(fa, v)]
      = [(ft.aliasName, ft.computeValue v addr)] := by
  show ((l1 ++ ft :: l2).foldl (fun acc2 ftx =>
      if fa = ftx.aliasName ∨ ftx.deprecatedAlias = some fa then
        alInsert acc2 ftx.aliasName (ftx.computeValue v addr)
      else acc2) []) = [(ft.aliasName, ft.computeValue v addr)]
  rw [List.foldl_append, freezeInner_no_match addr fa v l1 [] h1,
    List.foldl_cons, if_pos hm,
    show alInsert ([] : FieldMap) ft.aliasName (ft.computeValue v addr)
      = [(ft.aliasName, ft.computeValue v addr)] from rfl]
  exact freezeInner_no_match addr fa v l2 _ h2

theorem freezeInner_keys (addr : Address) (fts : List FieldType) (p : String × Value) :
    ∀ (l : List FieldType),
    (∀ ft ∈ l, ft.aliasName ∈ fts.map FieldType.aliasName) →
    ∀ (acc : FieldMap), (∀ x ∈ alKeys acc, x ∈ fts.map FieldType.aliasName) →
    ∀ x ∈ alKeys (l.foldl (fun acc2 ft =>
      if p.1 = ft.aliasName ∨ ft.deprecatedAlias = some p.1 then
        alInsert acc2 ft.aliasName (ft.computeValue p.2 addr)
      else acc2) acc), x ∈ fts.map FieldType.aliasName := by
  intro l
  induction l with
  | nil => intro _ acc hacc x hx; exact hacc x hx
  | cons ft0 lr ih =>
    intro hl acc hacc x hx
    rw [List.foldl_cons] at hx
    refine ih (fun f hf => hl f (List.mem_cons.mpr (Or.inr hf))) _ ?_ x hx
    intro y hy
    by_cases hc : p.1 = ft0.aliasName ∨ ft0.deprecatedAlias = some p.1
    · rw [if_pos hc] at hy
      rcases mem_alKeys_alInsert acc ft0.aliasName y _ hy with h' | h'
      · exact hacc y h'
      · rw [h']
        exact hl ft0 (List.mem_cons.mpr (Or.inl rfl))
    · rw [if_neg hc] at hy
      exact hacc y hy

theorem mem_alKeys_freezeFields (addr : Address) (fts : List FieldType) :
    ∀ (fields : FieldMap) (a : String),
    a ∈ alKeys (freezeFields addr fts fields) → a ∈ fts.map FieldType.aliasName := by
  suffices hgen : ∀ (fields acc : FieldMap),
      (∀ x ∈ alKeys acc, x ∈ fts.map FieldType.aliasName) →
      ∀ x ∈ alKeys (fields.foldl (fun acc p => fts.foldl (fun acc2 ft =>
        if p.1 = ft.aliasName ∨ ft.deprecatedAlias = some p.1 then
          alInsert acc2 ft.aliasName (ft.computeValue p.2 addr)
        else acc2) acc) acc), x ∈ fts.map FieldType.aliasName by
    intro fields a ha
    exact hgen fields [] (fun x hx => absurd hx (List.not_mem_nil x)) a ha
  intro fields
  induction fields with
  | nil => intro acc hacc x hx; exact hacc x hx
  | cons p pr ih =>
    intro acc hacc x hx
    rw [List.foldl_cons] at hx
    refine ih _ ?_ x hx
    intro y hy
    exact freezeInner_keys addr fts p fts
      (fun f hf => List.mem_map_of_mem FieldType.aliasName hf) acc hacc y hy

theorem set_defaults_none_eq (s : BuildFileDefaultsParserState) (args : List SDArg)
    (ext : Bool) (kw : FieldMap) :
    set_defaults s args none ext kw
      = match processArgsList s (if ext then s.defaults else []) args with
        | .error e => .error e
        | .ok sc2 => .ok { s with defaults := commitDefaults s.defaults sc2 } := rfl

theorem set_defaults_some_eq (s : BuildFileDefaultsParserState) (args : List SDArg)
    (ma : FieldMap) (ext : Bool) (kw : FieldMap) :
    set_defaults s args (some ma) ext kw
      = match processDefaultsArg s (if ext then s.defaults else [])
            (.dict [(.tuple s.registeredTargetTypes.aliases, .dict ma)]) true with
        | .error e => .error e
        | .ok sc1 =>
          match processArgsList s sc1 args with
          | .error e => .error e
          | .ok sc2 => .ok { s with defaults := commitDefaults s.defaults sc2 } := rfl

theorem commitDefaults_single (d : Defaults) (k : String) (m : FieldMap) :
    commitDefaults d [(k, m)] = if m.isEmpty then alPop d k else alInsert d k m := rfl

/-- C1 (amended): for every parent table, a `set_defaults` call applying no
directives with `extend = false` (no positional directives, no `all`)
returns successfully and leaves the engine exactly as constructed from the
parent, so freezing afterwards yields the frozen parent table — not the
empty table. -/
theorem set_defaults_no_directives_preserves_parent (path : String)
    (parent : Defaults) (reg : RegisteredTargetTypes) (kwargs : FieldMap) :
    set_defaults (BuildFileDefaultsParserState.create path parent reg)
        [] none false kwargs
      = .ok (BuildFileDefaultsParserState.create path parent reg) := rfl

/-- C1 (counterexample): a concrete non-empty parent for which freezing
with no directives applied and `extend = false` yields the (coerced)
parent table, which is not the empty table — refuting "yields an empty
table, regardless of parent". -/
theorem set_defaults_no_directives_empty_table_cex :
    set_defaults (BuildFileDefaultsParserState.create "src"
        [("test_type_1", [("tags", Value.strTup ["root-tag"])])] testRegistry)
        [] none false []
      = .ok (BuildFileDefaultsParserState.create "src"
        [("test_type_1", [("tags", Value.strTup ["root-tag"])])] testRegistry) ∧
    get_frozen_defaults (BuildFileDefaultsParserState.create "src"
        [("test_type_1", [("tags", Value.strTup ["root-tag"])])] testRegistry)
      = some [("test_type_1", [("tags", Value.strTup ["root-tag"])])] ∧
    some [("test_type_1", [("tags", Value.strTup ["root-tag"])])]
      ≠ some ([] : Defaults) :=
  ⟨rfl, by decide, by decide⟩

/-- C2: with `extend = false` and no `all` mapping, a kind named in the
call ends up with exactly the field mapping given in the call (parent
fields for that kind that are not re-specified are dropped), while every
kind not named in the call keeps its prior working defaults unchanged. -/
theorem set_defaults_extend_false_replacement
    (s : BuildFileDefaultsParserState) (k : String) (tt : TargetType)
    (m : FieldMap) (kw : FieldMap)
    (hWF : s.registeredTargetTypes.WF)
    (hg : alGet s.registeredTargetTypes.aliasesToTypes k = some tt)
    (hval : ∀ p ∈ m, p.1 ∈ tt.validFieldAliases)
    (hnd : (alKeys m).Nodup)
    (hne : m ≠ []) :
    ∃ s', set_defaults s [.dict [(.single k, .dict m)]] none false kw = .ok s' ∧
      alGet s'.defaults k = some m ∧
      ∀ k', k' ≠ k → alGet s'.defaults k' = alGet s.defaults k' := by
  have hta : tt.aliasName = k := hWF.2 (k, tt) (alGet_mem _ _ _ hg)
  have hfind : m.find? (fun p => decide (p.1 ∉ tt.validFieldAliases)) = none := by
    rw [List.find?_eq_none]
    intro p hp
    simpa using hval p hp
  have hpa : processAliases s false m [] [k] = .ok (mergeInto [] tt.aliasName m) := by
    rw [processAliases_cons_false_ok s m [] k [] tt hg hfind]
    rfl
  have hmerge : mergeInto ([] : Defaults) tt.aliasName m = [(k, m)] := by
    rw [hta]
    show alInsert [] k (alUpdate ((alGet ([] : Defaults) k).getD []) m) = [(k, m)]
    rw [show (alGet ([] : Defaults) k).getD [] = ([] : FieldMap) from rfl,
      alUpdate_nil_left m hnd]
    rfl
  have hargs : processArgsList s [] [SDArg.dict [(SDKey.single k, SDVal.dict m)]]
      = .ok [(k, m)] := by
    rw [processArgsList_single]
    show processEntries s false [] [(SDKey.single k, SDVal.dict m)] = _
    rw [processEntries_single]
    show processAliases s false m [] [k] = _
    rw [hpa, hmerge]
  have hie : m.isEmpty = false := by
    cases m with
    | nil => exact absurd rfl hne
    | cons a b => rfl
  refine ⟨{ s with defaults := alInsert s.defaults k m }, ?_, ?_, ?_⟩
  · rw [set_defaults_none_eq]
    rw [show (if false then s.defaults else ([] : Defaults)) = [] from rfl, hargs]
    show Except.ok { s with defaults := commitDefaults s.defaults [(k, m)] } = _
    rw [commitDefaults_single, hie]
    rfl
  · show alGet (alInsert s.defaults k m) k = some m
    exact alGet_alInsert_self s.defaults k m
  · intro k' hk'
    show alGet (alInsert s.defaults k m) k' = alGet s.defaults k'
    exact alGet_alInsert_ne s.defaults k k' m (fun he => hk' he.symm)

/-- Witness for C2: the "extend test" scenario of `defaults_test.py` — the
parent gives `test_type_2` both `tags` and `description`; the call
re-specifies only `description`, so `tags` is dropped for `test_type_2`
while `target` and `test_type_1` keep their parent defaults. -/
theorem set_defaults_extend_false_replacement_witness :
    (BuildFileDefaultsParserState.create "src"
        [("target", [("tags", Value.strTup ["root-tag"])]),
         ("test_type_1", [("tags", Value.strTup ["root-tag"])]),
         ("test_type_2", [("tags", Value.strTup ["root-tag"]),
                          ("description", Value.str "extend default with desc")])]
        testRegistry).registeredTargetTypes.WF ∧
    (∃ s', set_defaults (BuildFileDefaultsParserState.create "src"
        [("target", [("tags", Value.strTup ["root-tag"])]),
         ("test_type_1", [("tags", Value.strTup ["root-tag"])]),
         ("test_type_2", [("tags", Value.strTup ["root-tag"]),
                          ("description", Value.str "extend default with desc")])]
        testRegistry)
        [.dict [(.single "test_type_2",
          .dict [("description", Value.str "only desc default")])]] none false []
        = .ok s' ∧
      alGet s'.defaults "test_type_2"
        = some [("description", Value.str "only desc default")] ∧
      ∀ k', k' ≠ "test_type_2" →
        alGet s'.defaults k'
          = alGet (BuildFileDefaultsParserState.create "src"
              [("target", [("tags", Value.strTup ["root-tag"])]),
               ("test_type_1", [("tags", Value.strTup ["root-tag"])]),
               ("test_type_2", [("tags", Value.strTup ["root-tag"]),
                                ("description", Value.str "extend default with desc")])]
              testRegistry).defaults k') :=
  ⟨by decide,
   set_defaults_extend_false_replacement _ "test_type_2"
     (mkTestTargetType "test_type_2")
     [("description", Value.str "only desc default")] []
     (by decide) rfl (by decide) (by decide) (by decide)⟩

/-- C3: if a `set_defaults` call raises any error, the engine's working
defaults are exactly what they were before the call — `self.defaults` is
only written by the commit loop, which runs after all validation. -/
theorem set_defaults_error_atomic (s : BuildFileDefaultsParserState)
    (args : List SDArg) (allD : Option FieldMap) (ext : Bool) (kw : FieldMap)
    (e : SDError) (h : set_defaults s args allD ext kw = .error e) :
    set_defaults_observed s args allD ext kw = s := by
  unfold set_defaults_observed
  rw [h]

/-- Witness for C3: a call whose positional argument is not a dict raises
the shape error and leaves the engine unchanged. -/
theorem set_defaults_error_atomic_witness :
    set_defaults (BuildFileDefaultsParserState.create ""
        [("target", [("tags", Value.str "x")])] testRegistry)
        [.notDict "list"] none false []
      = .error (.expectedDict "list"
          { path := "", generatedName := "__defaults__" }) ∧
    set_defaults_observed (BuildFileDefaultsParserState.create ""
        [("target", [("tags", Value.str "x")])] testRegistry)
        [.notDict "list"] none false []
      = BuildFileDefaultsParserState.create ""
          [("target", [("tags", Value.str "x")])] testRegistry :=
  ⟨rfl, set_defaults_error_atomic _ _ _ _ _ _ rfl⟩

/-- C7: `get_frozen_defaults` is side-effect-free and idempotent: the
post-call state equals the pre-call state, and calling it again on that
state returns the same table. -/
theorem get_frozen_defaults_idempotent (s : BuildFileDefaultsParserState) :
    (get_frozen_defaults_call s).2 = s ∧
    (get_frozen_defaults_call ((get_frozen_defaults_call s).2)).1
      = (get_frozen_defaults_call s).1 :=
  ⟨rfl, rfl⟩

/-- C9: `set_defaults` accepts and ignores arbitrary unknown keyword
arguments — a call carrying only such keywords never raises and leaves the
working defaults unchanged. -/
theorem set_defaults_kwargs_ignored (s : BuildFileDefaultsParserState)
    (kw : FieldMap) : set_defaults s [] none false kw = .ok s := rfl

/-- C5: applying a directive mapping a registered kind to an empty field
mapping (default `extend = false`) removes that kind's entry from the
working defaults, so the frozen table has no entry for that kind. -/
theorem set_defaults_empty_directive_resets
    (s : BuildFileDefaultsParserState) (k : String) (tt : TargetType)
    (kw : FieldMap)
    (hWF : s.registeredTargetTypes.WF)
    (hg : alGet s.registeredTargetTypes.aliasesToTypes k = some tt)
    (hreg : ∀ p ∈ s.defaults,
      p.2 = [] ∨ (alGet s.registeredTargetTypes.aliasesToTypes p.1).isSome) :
    ∃ s', set_defaults s [.dict [(.single k, .dict [])]] none false kw = .ok s' ∧
      alGet s'.defaults k = none ∧
      ∃ t, get_frozen_defaults s' = some t ∧ alGet t k = none := by
  have hta : tt.aliasName = k := hWF.2 (k, tt) (alGet_mem _ _ _ hg)
  have hfind : ([] : FieldMap).find?
      (fun p => decide (p.1 ∉ tt.validFieldAliases)) = none := rfl
  have hpa : processAliases s false [] ([] : Defaults) [k]
      = .ok (mergeInto [] tt.aliasName []) := by
    rw [processAliases_cons_false_ok s [] [] k [] tt hg hfind]
    rfl
  have hmerge : mergeInto ([] : Defaults) tt.aliasName [] = [(k, [])] := by
    rw [hta]
    rfl
  have hargs : processArgsList s []
      [SDArg.dict [(SDKey.single k, SDVal.dict [])]] = .ok [(k, [])] := by
    rw [processArgsList_single]
    show processEntries s false [] [(SDKey.single k, SDVal.dict [])] = _
    rw [processEntries_single]
    show processAliases s false [] [] [k] = _
    rw [hpa, hmerge]
  refine ⟨{ s with defaults := alPop s.defaults k }, ?_, ?_, ?_⟩
  · rw [set_defaults_none_eq,
      show (if false then s.defaults else ([] : Defaults)) = [] from rfl, hargs]
    rfl
  · show alGet (alPop s.defaults k) k = none
    exact alGet_alPop_self s.defaults k
  · have hreg' : ∀ p ∈ alPop s.defaults k,
        p.2 = [] ∨ (alGet s.registeredTargetTypes.aliasesToTypes p.1).isSome :=
      fun p hp => hreg p (alPop_subset s.defaults k p hp)
    obtain ⟨t, ht, hkeys⟩ :=
      freeze_ok { s with defaults := alPop s.defaults k } (alPop s.defaults k) hreg'
    refine ⟨t, ht, ?_⟩
    exact (alGet_eq_none_iff t k).mpr
      (hkeys ▸ (alGet_eq_none_iff _ k).mp (alGet_alPop_self s.defaults k))

/-- Witness for C5: the "reset default" scenario of `defaults_test.py` —
parent `{test_type_1: {tags: (foo-bar,)}}`, directive `{test_type_1: {}}`,
frozen result has no `test_type_1` entry. -/
theorem set_defaults_empty_directive_resets_witness :
    (∀ p ∈ (BuildFileDefaultsParserState.create ""
        [("test_type_1", [("tags", Value.strTup ["foo-bar"])])]
        testRegistry).defaults,
      p.2 = [] ∨ (alGet (BuildFileDefaultsParserState.create ""
        [("test_type_1", [("tags", Value.strTup ["foo-bar"])])]
        testRegistry).registeredTargetTypes.aliasesToTypes p.1).isSome) ∧
    (∃ s', set_defaults (BuildFileDefaultsParserState.create ""
        [("test_type_1", [("tags", Value.strTup ["foo-bar"])])] testRegistry)
        [.dict [(.single "test_type_1", .dict [])]] none false [] = .ok s' ∧
      alGet s'.defaults "test_type_1" = none ∧
      ∃ t, get_frozen_defaults s' = some t ∧ alGet t "test_type_1" = none) :=
  ⟨by decide,
   set_defaults_empty_directive_resets _ "test_type_1"
     (mkTestTargetType "test_type_1") [] (by decide) rfl (by decide)⟩

/-- C8: an explicit directive whose key contains an unregistered alias (as
a single alias or anywhere in a tuple of aliases, with the aliases before
it processable) makes `set_defaults` raise the unrecognized-kind error
naming that alias and the scope. -/
theorem set_defaults_unknown_target_raises
    (s : BuildFileDefaultsParserState) (key : SDKey) (m : FieldMap)
    (pre post : List String) (a : String) (allD : Option FieldMap)
    (ext : Bool) (kw : FieldMap)
    (hWF : s.registeredTargetTypes.WF)
    (hsplit : key.aliasList = pre ++ a :: post)
    (hpre : ∀ b ∈ pre,
      ∃ tb, alGet s.registeredTargetTypes.aliasesToTypes b = some tb ∧
        m.find? (fun p => decide (p.1 ∉ tb.validFieldAliases)) = none)
    (ha : alGet s.registeredTargetTypes.aliasesToTypes a = none) :
    set_defaults s [.dict [(key, .dict m)]] allD ext kw
      = .error (.unrecognizedTargetType a s.address) := by
  have herr : ∀ sc, processArgsList s sc [SDArg.dict [(key, SDVal.dict m)]]
      = .error (.unrecognizedTargetType a s.address) := by
    intro sc
    rw [processArgsList_single]
    show processEntries s false sc [(key, SDVal.dict m)] = _
    rw [processEntries_single, hsplit]
    exact processAliases_unknown s m post a ha pre sc hpre
  cases allD with
  | none =>
    rw [set_defaults_none_eq, herr]
  | some ma =>
    rw [set_defaults_some_eq]
    obtain ⟨sc1, hok, _, _⟩ := processAll_spec s ma hWF (if ext then s.defaults else [])
    rw [hok]
    show (match processArgsList s sc1 [SDArg.dict [(key, SDVal.dict m)]] with
      | Except.error e => Except.error e
      | Except.ok sc2 =>
        Except.ok { s with defaults := commitDefaults s.defaults sc2 })
      = Except.error (SDError.unrecognizedTargetType a s.address)
    rw [herr sc1]

/-- Witness for C8: the "unknown target" scenario of `defaults_test.py`. -/
theorem set_defaults_unknown_target_raises_witness :
    (SDKey.single "unknown_target").aliasList
      = [] ++ "unknown_target" :: [] ∧
    set_defaults (BuildFileDefaultsParserState.create "" [] testRegistry)
        [.dict [(.single "unknown_target", .dict [])]] none false []
      = .error (.unrecognizedTargetType "unknown_target"
          { path := "", generatedName := "__defaults__" }) :=
  ⟨rfl,
   set_defaults_unknown_target_raises _ (SDKey.single "unknown_target") []
     [] [] "unknown_target" none false [] (by decide) rfl (by simp) rfl⟩

theorem alGet_commitDefaults_of_nonempty (d sc : Defaults) (k : String)
    (m : FieldMap) (hn : (alKeys sc).Nodup) (hm : alGet sc k = some m)
    (hne : m.isEmpty = false) :
    alGet (commitDefaults d sc) k = some m := by
  have h := alGet_commitDefaults_mem d sc k m hn hm
  rw [hne] at h
  simpa using h

theorem not_mem_alKeys_filter (d : FieldMap) (valid : List String) (fa : String)
    (h : fa ∉ valid) :
    fa ∉ alKeys (d.filter (fun p => decide (p.1 ∈ valid))) :=
  (alGet_eq_none_iff _ fa).mp (alGet_filter_eq_none d fa valid h)

theorem processAll_nodup (s : BuildFileDefaultsParserState) (ma : FieldMap)
    (sc sc1 : Defaults)
    (hok : processDefaultsArg s sc
      (.dict [(.tuple s.registeredTargetTypes.aliases, .dict ma)]) true = .ok sc1)
    (hn : (alKeys sc).Nodup) : (alKeys sc1).Nodup := by
  rw [show processDefaultsArg s sc
      (.dict [(.tuple s.registeredTargetTypes.aliases, .dict ma)]) true
      = processEntries s true sc
          [(.tuple s.registeredTargetTypes.aliases, .dict ma)] from rfl,
    processEntries_single] at hok
  exact processAliases_nodup s true ma _ sc sc1 hok hn

/-- C4: in a call combining `all` with an explicit per-kind directive, the
explicit value wins for every (kind, field) pair it specifies, while every
other registered kind that has the field receives the `all` value. -/
theorem set_defaults_all_explicit_precedence
    (s : BuildFileDefaultsParserState) (k : String) (tt : TargetType)
    (mk ma : FieldMap) (kw : FieldMap)
    (hWF : s.registeredTargetTypes.WF)
    (hg : alGet s.registeredTargetTypes.aliasesToTypes k = some tt)
    (hval : ∀ p ∈ mk, p.1 ∈ tt.validFieldAliases)
    (hndk : (alKeys mk).Nodup)
    (hnda : (alKeys ma).Nodup) :
    ∃ s', set_defaults s [.dict [(.single k, .dict mk)]] (some ma) false kw
        = .ok s' ∧
      (∀ f v, (f, v) ∈ mk →
        ∃ e, alGet s'.defaults k = some e ∧ alGet e f = some v) ∧
      (∀ k' tt' f w, k' ≠ k →
        alGet s.registeredTargetTypes.aliasesToTypes k' = some tt' →
        (f, w) ∈ ma → f ∈ tt'.validFieldAliases →
        ∃ e, alGet s'.defaults k' = some e ∧ alGet e f = some w) := by
  have hta : tt.aliasName = k := hWF.2 (k, tt) (alGet_mem _ _ _ hg)
  obtain ⟨sc1, hok1, hnotin1, hin1⟩ := processAll_spec s ma hWF ([] : Defaults)
  have hnodup1 : (alKeys sc1).Nodup := processAll_nodup s ma [] sc1 hok1 List.nodup_nil
  have hfilter : ∀ (ttx : TargetType),
      alUpdate ((alGet ([] : Defaults) k).getD [])
        (ma.filter (fun p => decide (p.1 ∈ ttx.validFieldAliases)))
      = ma.filter (fun p => decide (p.1 ∈ ttx.validFieldAliases)) := by
    intro ttx
    rw [show (alGet ([] : Defaults) k).getD [] = ([] : FieldMap) from rfl]
    exact alUpdate_nil_left _ (alKeys_filter_nodup ma _ hnda)
  have hsc1 : ∀ (k0 : String) (tt0 : TargetType),
      alGet s.registeredTargetTypes.aliasesToTypes k0 = some tt0 →
      alGet sc1 k0 = some (ma.filter (fun p => decide (p.1 ∈ tt0.validFieldAliases))) := by
    intro k0 tt0 hg0
    rw [hin1 k0 tt0 hg0,
      show (alGet ([] : Defaults) k0).getD [] = ([] : FieldMap) from rfl,
      alUpdate_nil_left _ (alKeys_filter_nodup ma _ hnda)]
  have hfind : mk.find? (fun p => decide (p.1 ∉ tt.validFieldAliases)) = none := by
    rw [List.find?_eq_none]
    intro p hp
    simpa using hval p hp
  have hargs : processArgsList s sc1 [SDArg.dict [(SDKey.single k, SDVal.dict mk)]]
      = .ok (mergeInto sc1 tt.aliasName mk) := by
    rw [processArgsList_single]
    show processEntries s false sc1 [(SDKey.single k, SDVal.dict mk)] = _
    rw [processEntries_single]
    show processAliases s false mk sc1 [k] = _
    rw [processAliases_cons_false_ok s mk sc1 k [] tt hg hfind]
    rfl
  have hnodup2 : (alKeys (mergeInto sc1 tt.aliasName mk)).Nodup :=
    mergeInto_nodup _ _ _ hnodup1
  have hsc2k : alGet (mergeInto sc1 tt.aliasName mk) k
      = some (alUpdate (ma.filter (fun p => decide (p.1 ∈ tt.validFieldAliases))) mk) := by
    rw [hta, alGet_mergeInto_self sc1 k mk, hsc1 k tt hg]
    rfl
  refine ⟨{ s with defaults := commitDefaults s.defaults (mergeInto sc1 tt.aliasName mk) },
    ?_, ?_, ?_⟩
  · rw [set_defaults_some_eq,
      show (if false then s.defaults else ([] : Defaults)) = [] from rfl, hok1]
    show (match processArgsList s sc1 [SDArg.dict [(SDKey.single k, SDVal.dict mk)]] with
      | Except.error e => Except.error e
      | Except.ok sc2 =>
        Except.ok { s with defaults := commitDefaults s.defaults sc2 }) = _
    rw [hargs]
  · intro f v hf
    have hev : alGet (alUpdate (ma.filter
        (fun p => decide (p.1 ∈ tt.validFieldAliases))) mk) f = some v :=
      alGet_alUpdate_mem _ mk f v hndk hf
    refine ⟨_, ?_, hev⟩
    show alGet (commitDefaults s.defaults (mergeInto sc1 tt.aliasName mk)) k = _
    exact alGet_commitDefaults_of_nonempty s.defaults _ k _ hnodup2 hsc2k
      (isEmpty_false_of_alGet _ f v hev)
  · intro k' tt' f w hne' hgk' hfw hfv
    have hfw' : (f, w) ∈ ma.filter (fun p => decide (p.1 ∈ tt'.validFieldAliases)) :=
      List.mem_filter.mpr ⟨hfw, by simpa using hfv⟩
    have hev : alGet (ma.filter (fun p => decide (p.1 ∈ tt'.validFieldAliases))) f
        = some w :=
      alGet_of_mem_nodup _ f w (alKeys_filter_nodup ma _ hnda) hfw'
    have hkne : tt.aliasName ≠ k' := by
      rw [hta]
      exact fun he => hne' he.symm
    have hsc2k' : alGet (mergeInto sc1 tt.aliasName mk) k'
        = some (ma.filter (fun p => decide (p.1 ∈ tt'.validFieldAliases))) := by
      rw [alGet_mergeInto_ne sc1 tt.aliasName k' mk hkne]
      exact hsc1 k' tt' hgk'
    refine ⟨_, ?_, hev⟩
    show alGet (commitDefaults s.defaults (mergeInto sc1 tt.aliasName mk)) k' = _
    exact alGet_commitDefaults_of_nonempty s.defaults _ k' _ hnodup2 hsc2k'
      (isEmpty_false_of_alGet _ f w hev)

/-- Witness for C4: the wildcard-precedence scenario — `all` sets
`tags = [x]` while the explicit directive sets `tags = [y]` for
`test_type_1`; `test_type_1` gets `[y]`, `test_type_2` gets `[x]`. -/
theorem set_defaults_all_explicit_precedence_witness :
    (BuildFileDefaultsParserState.create "src/proj/a" [] testRegistry
      ).registeredTargetTypes.WF ∧
    (∃ s', set_defaults (BuildFileDefaultsParserState.create "src/proj/a" [] testRegistry)
        [.dict [(.single "test_type_1", .dict [("tags", Value.strTup ["y"])])]]
        (some [("tags", Value.strTup ["x"])]) false [] = .ok s' ∧
      (∀ f v, (f, v) ∈ [("tags", Value.strTup ["y"])] →
        ∃ e, alGet s'.defaults "test_type_1" = some e ∧ alGet e f = some v) ∧
      (∀ k' tt' f w, k' ≠ "test_type_1" →
        alGet (BuildFileDefaultsParserState.create "src/proj/a" [] testRegistry
          ).registeredTargetTypes.aliasesToTypes k' = some tt' →
        (f, w) ∈ [("tags", Value.strTup ["x"])] → f ∈ tt'.validFieldAliases →
        ∃ e, alGet s'.defaults k' = some e ∧ alGet e f = some w)) :=
  ⟨by decide,
   set_defaults_all_explicit_precedence _ "test_type_1"
     (mkTestTargetType "test_type_1") [("tags", Value.strTup ["y"])]
     [("tags", Value.strTup ["x"])] []
     (by decide) rfl (by decide) (by decide) (by decide)⟩

theorem set_defaults_args_error (s : BuildFileDefaultsParserState)
    (args : List SDArg) (allD : Option FieldMap) (ext : Bool) (kw : FieldMap)
    (e : SDError) (hWF : s.registeredTargetTypes.WF)
    (herr : ∀ sc, processArgsList s sc args = .error e) :
    set_defaults s args allD ext kw = .error e := by
  cases allD with
  | none =>
    rw [set_defaults_none_eq, herr]
  | some ma =>
    rw [set_defaults_some_eq]
    obtain ⟨sc1, hok, _, _⟩ := processAll_spec s ma hWF (if ext then s.defaults else [])
    rw [hok]
    show (match processArgsList s sc1 args with
      | Except.error e => Except.error e
      | Except.ok sc2 =>
        Except.ok { s with defaults := commitDefaults s.defaults sc2 })
      = Except.error e
    rw [herr sc1]

/-- C6: an invalid field alias named in an explicit directive for a
registered kind always raises the invalid-field error carrying the field,
the kind's alias and the sorted valid aliases, no matter what else the
call contains; the same field named only in the `all` mapping never
raises, and the field is absent from the resulting defaults of every
registered kind lacking it. -/
theorem set_defaults_unknown_field_cases (s : BuildFileDefaultsParserState)
    (hWF : s.registeredTargetTypes.WF) :
    (∀ (k : String) (tt : TargetType) (m : FieldMap) (pr : String × Value)
       (allD : Option FieldMap) (ext : Bool) (kw : FieldMap),
      alGet s.registeredTargetTypes.aliasesToTypes k = some tt →
      m.find? (fun p => decide (p.1 ∉ tt.validFieldAliases)) = some pr →
      set_defaults s [.dict [(.single k, .dict m)]] allD ext kw
        = .error (.unrecognizedField pr.1 tt.aliasName
            (sortedFieldAliases tt.validFieldAliases))) ∧
    (∀ (ma : FieldMap) (ext : Bool) (kw : FieldMap),
      ∃ s₁, set_defaults s [] (some ma) ext kw = .ok s₁) ∧
    (∀ (ma : FieldMap) (kw : FieldMap) (fa : String)
       (s' : BuildFileDefaultsParserState),
      set_defaults s [] (some ma) false kw = .ok s' →
      ∀ (k' : String) (tt' : TargetType),
        alGet s.registeredTargetTypes.aliasesToTypes k' = some tt' →
        fa ∉ tt'.validFieldAliases →
        ∀ e, alGet s'.defaults k' = some e → alGet e fa = none) := by
  refine ⟨?_, ?_, ?_⟩
  · intro k tt m pr allD ext kw hg hfind
    refine set_defaults_args_error s _ allD ext kw _ hWF ?_
    intro sc
    rw [processArgsList_single]
    show processEntries s false sc [(SDKey.single k, SDVal.dict m)] = _
    rw [processEntries_single]
    show processAliases s false m sc [k] = _
    exact processAliases_cons_false_err s m sc k [] tt pr hg hfind
  · intro ma ext kw
    obtain ⟨sc1, hok, _, _⟩ := processAll_spec s ma hWF (if ext then s.defaults else [])
    refine ⟨{ s with defaults := commitDefaults s.defaults sc1 }, ?_⟩
    rw [set_defaults_some_eq, hok]
    rfl
  · intro ma kw fa s' hok' k' tt' hgk' hfa e hget
    obtain ⟨sc1, hok, hnotin1, hin1⟩ := processAll_spec s ma hWF ([] : Defaults)
    have hnodup1 : (alKeys sc1).Nodup := processAll_nodup s ma [] sc1 hok List.nodup_nil
    have hcall : set_defaults s [] (some ma) false kw
        = .ok { s with defaults := commitDefaults s.defaults sc1 } := by
      rw [set_defaults_some_eq,
        show (if false then s.defaults else ([] : Defaults)) = [] from rfl, hok]
      rfl
    have hs' : s' = { s with defaults := commitDefaults s.defaults sc1 } := by
      rw [hcall] at hok'
      exact (Except.ok.inj hok').symm
    have hsc1k' : alGet sc1 k'
        = some (alUpdate ([] : FieldMap)
            (ma.filter (fun p => decide (p.1 ∈ tt'.validFieldAliases)))) := by
      rw [hin1 k' tt' hgk']
      rfl
    have hcommit := alGet_commitDefaults_mem s.defaults sc1 k' _ hnodup1 hsc1k'
    rw [hs'] at hget
    have hget' : alGet (commitDefaults s.defaults sc1) k' = some e := hget
    rw [hget'] at hcommit
    by_cases hemp : (alUpdate ([] : FieldMap)
        (ma.filter (fun p => decide (p.1 ∈ tt'.validFieldAliases)))).isEmpty
    · rw [hemp] at hcommit
      simp at hcommit
    · rw [Bool.not_eq_true] at hemp
      rw [hemp] at hcommit
      simp at hcommit
      rw [hcommit]
      rw [alGet_alUpdate_not_mem ([] : FieldMap) _ fa
        (not_mem_alKeys_filter ma tt'.validFieldAliases fa hfa)]
      rfl

/-- Witness for C6: `does-not-exist` in an explicit directive for
`test_type_1` raises the invalid-field error with the sorted alias list;
`foo_bar` passed only through `all` is accepted and absent from the
result. -/
theorem set_defaults_unknown_field_cases_witness :
    (BuildFileDefaultsParserState.create ""
      [("test_type_1", [("tags", Value.strTup ["a"]), ("foo_bar", Value.str "z")])]
      testRegistry).registeredTargetTypes.WF ∧
    set_defaults (BuildFileDefaultsParserState.create ""
        [("test_type_1", [("tags", Value.strTup ["a"]), ("foo_bar", Value.str "z")])]
        testRegistry)
        [.dict [(.single "test_type_1",
          .dict [("does-not-exist", Value.strTup [])])]] none false []
      = .error (.unrecognizedField "does-not-exist" "test_type_1"
          ["dependencies", "desc", "description", "tags"]) ∧
    alGet [("tags", Value.strTup ["x"])] "foo_bar" = none :=
  ⟨by decide,
   by
    have h := (set_defaults_unknown_field_cases
      (BuildFileDefaultsParserState.create ""
        [("test_type_1", [("tags", Value.strTup ["a"]), ("foo_bar", Value.str "z")])]
        testRegistry) (by decide)).1
      "test_type_1" (mkTestTargetType "test_type_1")
      [("does-not-exist", Value.strTup [])]
      ("does-not-exist", Value.strTup []) none false [] rfl rfl
    exact h,
   by
    have h := (set_defaults_unknown_field_cases
      (BuildFileDefaultsParserState.create ""
        [("test_type_1", [("tags", Value.strTup ["a"]), ("foo_bar", Value.str "z")])]
        testRegistry) (by decide)).2.2
      [("tags", Value.strTup ["x"]), ("foo_bar", Value.str "ignored")] []
      "foo_bar"
      (BuildFileDefaultsParserState.create ""
        [("test_type_1", [("tags", Value.strTup ["x"])]),
         ("target", [("tags", Value.strTup ["x"])]),
         ("test_type_2", [("tags", Value.strTup ["x"])])] testRegistry)
      rfl "test_type_1" (mkTestTargetType "test_type_1") rfl (by decide)
      [("tags", Value.strTup ["x"])] rfl
    exact h⟩

theorem freezeEntry_cons_some (s : BuildFileDefaultsParserState) (k : String)
    (f : String × Value) (fr : FieldMap) (tt : TargetType)
    (hg : alGet s.registeredTargetTypes.aliasesToTypes k = some tt) :
    freezeEntry s (k, f :: fr)
      = some (k, freezeFields s.address tt.fieldTypes (f :: fr)) := by
  simp [freezeEntry, hg]

/-- C10: at freeze time a field stored under a field type's deprecated
alias is emitted under that field type's current alias with the coerced
value, and a stored field alias matching neither the current nor the
deprecated alias of any field type of its kind is silently dropped — the
entry still freezes successfully. -/
theorem get_frozen_defaults_deprecated_and_drop (s : BuildFileDefaultsParserState) :
    (∀ (k : String) (tt : TargetType) (fa : String) (v : Value)
       (l1 : List FieldType) (ft : FieldType) (l2 : List FieldType) (t : Defaults),
      alGet s.registeredTargetTypes.aliasesToTypes k = some tt →
      alGet s.defaults k = some [(fa, v)] →
      tt.fieldTypes = l1 ++ ft :: l2 →
      ft.deprecatedAlias = some fa →
      (∀ ft' ∈ l1, ¬(fa = ft'.aliasName ∨ ft'.deprecatedAlias = some fa)) →
      (∀ ft' ∈ l2, ¬(fa = ft'.aliasName ∨ ft'.deprecatedAlias = some fa)) →
      get_frozen_defaults s = some t →
      alGet t k = some [(ft.aliasName, ft.computeValue v s.address)]) ∧
    (∀ (k : String) (tt : TargetType) (fs : FieldMap) (t : Defaults)
       (e : FieldMap) (fa : String),
      alGet s.registeredTargetTypes.aliasesToTypes k = some tt →
      alGet s.defaults k = some fs →
      get_frozen_defaults s = some t →
      alGet t k = some e →
      (∀ ft ∈ tt.fieldTypes, ¬(fa = ft.aliasName ∨ ft.deprecatedAlias = some fa)) →
      alGet e fa = none) ∧
    (∀ (k : String) (fs : FieldMap),
      (alGet s.registeredTargetTypes.aliasesToTypes k).isSome →
      (freezeEntry s (k, fs)).isSome) := by
  refine ⟨?_, ?_, ?_⟩
  · intro k tt fa v l1 ft l2 t hg hd hsplit hdep h1 h2 hfroz
    obtain ⟨e, hfe, hget⟩ := mapM_freezeEntry_alGet s s.defaults t hfroz k [(fa, v)] hd
    rw [freezeEntry_cons_some s k (fa, v) [] tt hg] at hfe
    have he : e = freezeFields s.address tt.fieldTypes [(fa, v)] :=
      (congrArg Prod.snd (Option.some.inj hfe)).symm
    rw [hget, he, hsplit,
      freezeFields_single_match s.address l1 ft l2 fa v (Or.inr hdep) h1 h2]
  · intro k tt fs t e fa hg hd hfroz hget hnone
    obtain ⟨e0, hfe, hget0⟩ := mapM_freezeEntry_alGet s s.defaults t hfroz k fs hd
    have hee : e = e0 := by
      rw [hget] at hget0
      exact Option.some.inj hget0
    subst hee
    cases fs with
    | nil =>
      have : e = [] := congrArg Prod.snd (Option.some.inj hfe.symm)
      rw [this]
      rfl
    | cons f fr =>
      rw [freezeEntry_cons_some s k f fr tt hg] at hfe
      have he : e = freezeFields s.address tt.fieldTypes (f :: fr) :=
        congrArg Prod.snd (Option.some.inj hfe.symm)
      rw [he, alGet_eq_none_iff]
      intro hmem
      obtain ⟨ft0, hft0, hfa0⟩ := List.mem_map.mp
        (mem_alKeys_freezeFields s.address tt.fieldTypes (f :: fr) fa hmem)
      exact hnone ft0 hft0 (Or.inl hfa0.symm)
  · intro k fs hsome
    cases fs with
    | nil => rfl
    | cons f fr =>
      cases hg : alGet s.registeredTargetTypes.aliasesToTypes k with
      | none => rw [hg] at hsome; cases hsome
      | some tt => rw [freezeEntry_cons_some s k f fr tt hg]; rfl

/-- Witness for C10: working defaults store `test_type_1.desc` (the
deprecated alias of `description`); the frozen table emits it under
`description`, and a bogus alias would be dropped. -/
theorem get_frozen_defaults_deprecated_and_drop_witness :
    genericFieldTypes = [dependenciesFieldType] ++ descriptionFieldType :: [tagsFieldType] ∧
    descriptionFieldType.deprecatedAlias = some "desc" ∧
    alGet [("test_type_1", [("description", Value.str "x")])] "test_type_1"
      = some [("description", Value.str "x")] ∧
    alGet ([("description", Value.str "x")] : FieldMap) "bogus" = none :=
  ⟨rfl, rfl,
   by
    have h := (get_frozen_defaults_deprecated_and_drop
      (BuildFileDefaultsParserState.create "src"
        [("test_type_1", [("desc", Value.str "x")])] testRegistry)).1
      "test_type_1" (mkTestTargetType "test_type_1") "desc" (Value.str "x")
      [dependenciesFieldType] descriptionFieldType [tagsFieldType]
      [("test_type_1", [("description", Value.str "x")])]
      rfl rfl rfl rfl (by decide) (by decide) (by decide)
    exact h,
   by
    have h := (get_frozen_defaults_deprecated_and_drop
      (BuildFileDefaultsParserState.create "src"
        [("test_type_1", [("description", Value.str "x"), ("bogus", Value.str "y")])]
        testRegistry)).2.1
      "test_type_1" (mkTestTargetType "test_type_1")
      [("description", Value.str "x"), ("bogus", Value.str "y")]
      [("test_type_1", [("description", Value.str "x")])]
      [("description", Value.str "x")] "bogus"
      rfl rfl (by decide) (by decide) (by decide)
    exact h⟩
